import Mathlib

/- Verification of the event-planning backend core: the poll voting state
   machine and versioning, poll closing, leader derivation, Kanban order
   normalization and reorder validation, the last-organizer guard on
   participants, invite acceptance, and the websocket gateway handshake
   together with the broadcast group naming. -/

/- ===== Polls (apps/polls/models.py, apps/polls/views.py,
         apps/polls/serializers.py) ===== -/

/-- Poll row (apps/polls/models.py, class Poll): the fields read by the
voting and closing endpoints.  Timestamps are naturals; `options` is the
list of ids of the PollOption rows belonging to the poll. -/
structure Poll where
  multiple : Bool
  allow_change_vote : Bool
  is_closed : Bool
  end_at : Option Nat
  version : Nat
  options : List Nat
  deriving Repr, DecidableEq

/-- Poll.is_expired (models.py line 59): end_at is set and end_at <= now. -/
def Poll.is_expired (p : Poll) (now : Nat) : Bool :=
  match p.end_at with
  | none => false
  | some t => decide (t ≤ now)

/-- Poll.is_voting_closed (models.py line 63): is_closed or expired. -/
def Poll.is_voting_closed (p : Poll) (now : Nat) : Bool :=
  p.is_closed || p.is_expired now

/-- Observable outcome of an accepted vote request: the final vote set of
the caller for the poll, the poll version after the transaction, the
`changed` flag, the touched option ids, and whether a poll.updated
broadcast was emitted. -/
structure VoteOk where
  votes : Finset Nat
  version : Nat
  changed : Bool
  touched : Finset Nat
  broadcast : Bool
  deriving DecidableEq

/-- PollVoteView.post (apps/polls/views.py lines 296-399), embedded over the
vote rows of the calling user for this poll (`existing`, a set because of
the unique (poll, user, option) constraint).  Request parsing to a list of
integers is assumed done; every guard after that point is translated in
order.  The version update models `version = F(version) + 1` executed iff
`changed`, and the broadcast field models the post-transaction
`if changed: ws_notify_event(..., "poll.updated", ...)`. -/
def pollVotePost (poll : Poll) (now : Nat) (option_ids : List Nat)
    (existing : Finset Nat) : Except String VoteOk :=
  if poll.is_voting_closed now then .error "voting unavailable"
  else if poll.multiple = false ∧ option_ids.length ≠ 1 then
    .error "exactly one option required"
  else if poll.multiple = true ∧ option_ids.length ≠ option_ids.dedup.length then
    .error "options must not repeat"
  else if option_ids.any (fun oid => decide (oid ∉ poll.options)) then
    .error "options do not belong to the poll"
  else if poll.multiple = false then
    let selected := option_ids.headD 0
    if existing ≠ ∅ then
      if poll.allow_change_vote = false then
        if selected ∉ existing then .error "vote change not allowed"
        else .ok ⟨existing, poll.version, false, ∅, false⟩
      else if selected ∉ existing then
        .ok ⟨{selected}, poll.version + 1, true, existing ∪ {selected}, true⟩
      else .ok ⟨existing, poll.version, false, ∅, false⟩
    else
      .ok ⟨{selected}, poll.version + 1, true, {selected}, true⟩
  else
    let snew := option_ids.toFinset
    if existing ≠ ∅ ∧ poll.allow_change_vote = false ∧ snew ≠ existing then
      .error "vote change not allowed"
    else
      let to_create := snew \ existing
      let to_delete := if poll.allow_change_vote then existing \ snew else ∅
      let changed : Bool := decide (to_delete ≠ ∅) || decide (to_create ≠ ∅)
      .ok ⟨(existing \ to_delete) ∪ to_create,
           if changed then poll.version + 1 else poll.version,
           changed, to_delete ∪ to_create, changed⟩

/-- Result of PollCloseView.post: the poll row afterwards, whether a
poll.closed broadcast was emitted and the response message. -/
structure CloseResult where
  poll : Poll
  broadcast : Bool
  message : String
  deriving Repr, DecidableEq

/-- PollCloseView.post (apps/polls/views.py lines 402-417): a closed poll
answers "closed" untouched and without broadcasting; an open poll is
closed, its version incremented and poll.closed broadcast. -/
def pollClosePost (p : Poll) : CloseResult :=
  if p.is_closed then ⟨p, false, "closed"⟩
  else ⟨{ p with is_closed := true, version := p.version + 1 }, true, "closed"⟩

/-- One option row as seen by PollReadSerializer: id plus the annotated
votes_count. -/
structure PollOptionView where
  id : Nat
  votes_count : Nat
  deriving Repr, DecidableEq

/-- The accumulator loop of PollReadSerializer.get_leader_option_ids
(apps/polls/serializers.py lines 160-171): options with zero votes are
skipped, a strictly larger count resets the leader list, an equal count
appends. -/
def leadersAux (maxVotes : Nat) (leaders : List Nat) :
    List PollOptionView → Nat × List Nat
  | [] => (maxVotes, leaders)
  | o :: rest =>
    if o.votes_count = 0 then leadersAux maxVotes leaders rest
    else if maxVotes < o.votes_count then leadersAux o.votes_count [o.id] rest
    else if o.votes_count = maxVotes then leadersAux maxVotes (leaders ++ [o.id]) rest
    else leadersAux maxVotes leaders rest

/-- PollReadSerializer.get_leader_option_ids (serializers.py lines
156-171). -/
def get_leader_option_ids (options : List PollOptionView) : List Nat :=
  if options.isEmpty then [] else (leadersAux 0 [] options).2

/-- PollReadSerializer.get_total_votes (serializers.py lines 145-150): the
sum of the per-option vote counts (the annotated DB total is the same
number). -/
def get_total_votes (options : List PollOptionView) : Nat :=
  (options.map PollOptionView.votes_count).sum

/- ===== Task and TaskList ordering (apps/tasks/services/order.py,
         apps/tasks/views.py) ===== -/

/-- A task or task-list row reduced to the fields the ordering code reads:
primary key and `order`. -/
structure OrderedRow where
  id : Nat
  order : Nat
  deriving Repr, DecidableEq

/-- The `(order, id)` sort key used by `order_by("order", "id")`, as a
lexicographic comparison. -/
def rowLe (a b : OrderedRow) : Prop :=
  a.order < b.order ∨ (a.order = b.order ∧ a.id ≤ b.id)

instance : DecidableRel rowLe := fun a b => by
  unfold rowLe
  infer_instance

instance : IsTotal OrderedRow rowLe :=
  ⟨by intro a b; unfold rowLe; omega⟩

instance : IsTrans OrderedRow rowLe :=
  ⟨by intro a b c; unfold rowLe; omega⟩

/-- `order_by("order", "id")` over the locked rows. -/
def sortRows (rows : List OrderedRow) : List OrderedRow :=
  List.insertionSort rowLe rows

/-- The enumerate loop of the normalization functions: each row whose order
differs from its position index is updated to that index; the others are
left as they are. -/
def assignOrders : Nat → List OrderedRow → List OrderedRow
  | _, [] => []
  | index, r :: rest =>
    (if r.order = index then r else { r with order := index }) ::
      assignOrders (index + 1) rest

/-- normalize_task_orders_in_list (apps/tasks/services/order.py lines
8-23): lock the tasks of the list ordered by (order, id) and rewrite any
order that differs from the position index. -/
def normalize_task_orders_in_list (rows : List OrderedRow) : List OrderedRow :=
  assignOrders 0 (sortRows rows)

/-- normalize_tasklist_orders_in_event (apps/tasks/services/order.py lines
26-41): the same renumbering applied to the TaskList rows of an event. -/
def normalize_tasklist_orders_in_event (rows : List OrderedRow) : List OrderedRow :=
  assignOrders 0 (sortRows rows)

/-- The two failure shapes of a reorder request: a DRF field validation
error (per-field payload, no machine code) and the `invalid_ids` response
of the views. -/
inductive ReorderError where
  | validation (msg : String)
  | invalidIds
  deriving Repr, DecidableEq

/-- _validate_ordered_ids (apps/tasks/views.py lines 82-97) on an already
integer-typed list: an empty list passes through, duplicates raise a field
validation error (`len(ordered_ids) != len(set(ordered_ids))` is modelled
through `dedup`). -/
def _validate_ordered_ids (raw : List Nat) : Except ReorderError (List Nat) :=
  if raw = [] then .ok []
  else if raw.dedup.length ≠ raw.length then
    .error (.validation "ordered_ids must not contain duplicates")
  else .ok raw

/-- The assignment loop of the reorder views: walk ordered_ids, look the
row up by id and set its order to the position index. -/
def applyReorder (children : List OrderedRow) : Nat → List Nat → List OrderedRow
  | _, [] => []
  | index, oid :: rest =>
    match children.find? (fun r => r.id == oid) with
    | some r => { r with order := index } :: applyReorder children (index + 1) rest
    | none => applyReorder children (index + 1) rest

/-- ReorderTasksInListView.post / ReorderTaskListsView.post
(apps/tasks/views.py lines 397-433 and 447-486): validate the request
list, load the children locked and sorted by (order, id), compare id sets
and lengths, answer `invalid_ids` on mismatch, otherwise assign each child
the index of its id in the request. -/
def reorderPost (children : List OrderedRow) (raw : List Nat) :
    Except ReorderError (List OrderedRow) :=
  match _validate_ordered_ids raw with
  | .error e => .error e
  | .ok ordered_ids =>
    let existing_ids := (sortRows children).map OrderedRow.id
    if existing_ids.toFinset ≠ ordered_ids.toFinset ∨
        existing_ids.length ≠ ordered_ids.length then
      .error .invalidIds
    else .ok (applyReorder children 0 ordered_ids)

/- ===== Participants and the last-organizer guard
         (apps/events/signals.py, apps/events/views_participants.py) ===== -/

/-- Participant.Role (apps/events/models.py). -/
inductive Role where
  | organizer
  | member
  deriving Repr, DecidableEq

/-- Participant row: primary key, user, event and role. -/
structure Participant where
  pk : Nat
  userId : Nat
  eventId : Nat
  role : Role
  deriving Repr, DecidableEq

/-- _has_other_organizers (apps/events/signals.py lines 12-16): another
organizer row of the same event exists. -/
def _has_other_organizers (db : List Participant) (p : Participant) : Bool :=
  db.any fun q => decide (q.eventId = p.eventId ∧ q.role = Role.organizer ∧ q.pk ≠ p.pk)

/-- prevent_last_organizer_delete (signals.py lines 23-28): the pre_delete
hook refuses to delete the last organizer of an event. -/
def prevent_last_organizer_delete (db : List Participant) (inst : Participant) :
    Except String Unit :=
  if inst.role ≠ Role.organizer then .ok ()
  else if _has_other_organizers db inst then .ok ()
  else .error "Cannot remove the last organizer from the event."

/-- prevent_last_organizer_demotion (signals.py lines 31-44): the pre_save
hook refuses to save a row that demotes the last organizer.  The saved
instance carries the pk of an existing row; the previous state is looked
up in the store. -/
def prevent_last_organizer_demotion (db : List Participant) (inst : Participant) :
    Except String Unit :=
  match db.find? (fun q => q.pk == inst.pk) with
  | none => .ok ()
  | some previous =>
    if previous.role ≠ Role.organizer then .ok ()
    else if inst.role = Role.organizer then .ok ()
    else if _has_other_organizers db previous then .ok ()
    else .error "Cannot demote the last organizer of the event."

/-- participant.save(update_fields=["role"]) as run by the store: the
pre_save signal fires first and may raise; on success the row with the
same pk is replaced. -/
def saveParticipantRole (db : List Participant) (inst : Participant) :
    Except String (List Participant) :=
  match prevent_last_organizer_demotion db inst with
  | .error e => .error e
  | .ok _ => .ok (db.map fun q => if q.pk = inst.pk then inst else q)

/-- participant.delete() as run by the store: the pre_delete signal fires
first and may raise; on success the row is removed. -/
def deleteParticipantRow (db : List Participant) (p : Participant) :
    Except String (List Participant) :=
  match prevent_last_organizer_delete db p with
  | .error e => .error e
  | .ok _ => .ok (db.filter fun q => decide (q.pk ≠ p.pk))

/-- _other_organizers_exist (apps/events/views_participants.py lines
107-111), with the singleton exclude set of the view call sites. -/
def _other_organizers_exist (db : List Participant) (eventId excludePk : Nat) : Bool :=
  db.any fun q => decide (q.eventId = eventId ∧ q.role = Role.organizer ∧ q.pk ≠ excludePk)

/-- The response of the participant detail endpoints, reduced to what the
claims observe: not found, success, or an error with its machine code. -/
inductive ParticipantResponse where
  | notFound
  | ok
  | err (code : String)
  deriving Repr, DecidableEq

/-- EventParticipantDetailView.patch (views_participants.py lines
135-165): role update with the last-organizer guard, falling back to the
signal guard around save.  Returns the response and the store
afterwards. -/
def participantPatch (db : List Participant) (eventId pid requesterUserId : Nat)
    (newRole : Role) : ParticipantResponse × List Participant :=
  match db.find? (fun q => decide (q.eventId = eventId ∧ q.pk = pid)) with
  | none => (.notFound, db)
  | some participant =>
    if newRole = participant.role then (.ok, db)
    else if participant.role = Role.organizer ∧ newRole ≠ Role.organizer then
      if participant.userId = requesterUserId ∧
          _other_organizers_exist db participant.eventId participant.pk = false then
        (.err (if db.any fun q =>
                  decide (q.eventId = participant.eventId ∧ q.pk ≠ participant.pk) then
                "self_last_organizer" else "last_organizer"), db)
      else if _other_organizers_exist db participant.eventId participant.pk = false then
        (.err "last_organizer", db)
      else
        match saveParticipantRole db { participant with role := newRole } with
        | .error _ => (.err "last_organizer", db)
        | .ok db2 => (.ok, db2)
    else
      match saveParticipantRole db { participant with role := newRole } with
      | .error _ => (.err "last_organizer", db)
      | .ok db2 => (.ok, db2)

/-- EventParticipantDetailView.delete (views_participants.py lines
167-185): removal with the last-organizer guard, falling back to the
signal guard around delete. -/
def participantDelete (db : List Participant) (eventId pid requesterUserId : Nat) :
    ParticipantResponse × List Participant :=
  match db.find? (fun q => decide (q.eventId = eventId ∧ q.pk = pid)) with
  | none => (.notFound, db)
  | some participant =>
    if participant.role = Role.organizer then
      if participant.userId = requesterUserId ∧
          _other_organizers_exist db participant.eventId participant.pk = false then
        (.err "last_organizer", db)
      else if _other_organizers_exist db participant.eventId participant.pk = false then
        (.err "last_organizer", db)
      else
        match deleteParticipantRow db participant with
        | .error _ => (.err "last_organizer", db)
        | .ok db2 => (.ok, db2)
    else
      match deleteParticipantRow db participant with
      | .error _ => (.err "last_organizer", db)
      | .ok db2 => (.ok, db2)

/- ===== Invites (apps/events/views_invites.py) ===== -/

/-- Invite row fields read by validation and acceptance. -/
structure Invite where
  pk : Nat
  eventId : Nat
  expires_at : Nat
  max_uses : Nat
  uses_count : Nat
  is_revoked : Bool
  deriving Repr, DecidableEq

/-- Derived invite status. -/
inductive InviteStatus where
  | ok
  | expired
  | revoked
  | exhausted
  deriving Repr, DecidableEq

/-- _determine_status (apps/events/views_invites.py lines 22-30). -/
def _determine_status (inv : Invite) (now : Nat) : InviteStatus :=
  if inv.is_revoked then .revoked
  else if inv.expires_at ≤ now then .expired
  else if inv.max_uses ≠ 0 ∧ inv.max_uses ≤ inv.uses_count then .exhausted
  else .ok

/-- The response shapes of AcceptInviteView.post the claims observe. -/
inductive AcceptResponse where
  | alreadyMember
  | inviteError (st : InviteStatus)
  | joined
  deriving Repr, DecidableEq

/-- AcceptInviteView.post (views_invites.py lines 110-162), from the row
lock onwards: inside one transaction, an existing membership answers
already_member untouched; otherwise the status is re-checked at the
current time and, when ok, exactly one member Participant is inserted and
uses_count is incremented.  `newPk` is the key the store assigns to the
inserted row. -/
def acceptInvite (inv : Invite) (db : List Participant) (userId now newPk : Nat) :
    AcceptResponse × Invite × List Participant :=
  if db.any (fun q => decide (q.eventId = inv.eventId ∧ q.userId = userId)) then
    (.alreadyMember, inv, db)
  else
    let st := _determine_status inv now
    if st ≠ InviteStatus.ok then (.inviteError st, inv, db)
    else
      (.joined, { inv with uses_count := inv.uses_count + 1 },
        db ++ [⟨newPk, userId, inv.eventId, Role.member⟩])

/- ===== WebSocket gateway (apps/events/consumers.py,
         apps/tasks/ws_notify.py, apps/polls/ws_notify.py) ===== -/

/-- The authenticated principal of a websocket scope.  The JWT middleware
(config/ws_auth.py) loads the user row by id without re-checking the
active flag, so an inactive user can appear here. -/
structure WsUser where
  id : Nat
  is_active : Bool
  deriving Repr, DecidableEq

/-- The parts of the connection scope EventConsumer.connect reads:
`user = none` models a missing, anonymous or unauthenticated principal;
`event_id = none` models a missing or non-integer URL parameter. -/
structure WsScope where
  user : Option WsUser
  event_id : Option Nat
  deriving Repr, DecidableEq

/-- Outcome of the websocket handshake. -/
inductive ConnectOutcome where
  | close (code : Nat)
  | accept (group : String)
  deriving Repr, DecidableEq

/-- EventConsumer.connect (apps/events/consumers.py lines 29-53), checks in
source order: the user check closes 4401 first, then the event_id parse
closes 4400, then a non-participant closes 4403; otherwise the connection
is subscribed to group `event:<id>`.  `participants` is the set of
(event id, user id) Participant pairs. -/
def eventConsumerConnect (scope : WsScope) (participants : List (Nat × Nat)) :
    ConnectOutcome :=
  match scope.user with
  | none => .close 4401
  | some u =>
    match scope.event_id with
    | none => .close 4400
    | some eid =>
      if participants.any (fun q => decide (q.1 = eid ∧ q.2 = u.id)) then
        .accept ("event:" ++ toString eid)
      else .close 4403

/-- The broker group EventConsumer.connect subscribes a connection to
(consumers.py line 48). -/
def consumerGroupName (eventId : Nat) : String :=
  "event:" ++ toString eventId

/-- The broker group notify_event_group publishes Task/TaskList broadcasts
to (apps/tasks/ws_notify.py line 20). -/
def taskNotifyGroupName (eventId : Nat) : String :=
  "event_" ++ toString eventId

/-- The broker group ws_notify_event publishes poll broadcasts to
(apps/polls/ws_notify.py line 31). -/
def pollNotifyGroupName (eventId : Nat) : String :=
  "event:" ++ toString eventId

/- ===== Sample data used by the concrete witness theorems ===== -/

def pollC5 : Poll := ⟨false, true, false, none, 1, [1, 2]⟩

def invC8 : Invite := ⟨1, 5, 100, 0, 0, false⟩
def dbC8 : List Participant := [⟨1, 10, 5, Role.organizer⟩]

def pollC10 : Poll := ⟨false, true, false, none, 1, [1, 2, 3]⟩

def dbC4 : List Participant := [⟨1, 10, 5, Role.organizer⟩, ⟨2, 11, 5, Role.member⟩]

def pollC2 : Poll := ⟨false, true, false, none, 1, [1, 2]⟩
def voteC2 : VoteOk := ⟨{1}, 2, true, {1}, true⟩

def optsC6 : List PollOptionView := [⟨1, 2⟩, ⟨2, 2⟩, ⟨3, 1⟩]

def rowsC7 : List OrderedRow := [⟨1, 0⟩, ⟨2, 1⟩]

/- ===== Theorems ===== -/

/-- Claim C1: Task/TaskList mutation broadcasts are published to the same
broker group that connected participants of the event are subscribed to.
The code violates this: tasks/ws_notify.py publishes to `event_<id>`
(underscore) while EventConsumer.connect subscribes connections to
`event:<id>` (colon), so no subscribed connection receives task, tasklist
or progress.invalidate broadcasts; the poll notifier uses the matching
colon name.  This theorem evaluates the three group names at event id 1
and exhibits the mismatch. -/
theorem c1_task_broadcast_group_mismatch :
    taskNotifyGroupName 1 ≠ consumerGroupName 1
  ∧ eventConsumerConnect ⟨some ⟨7, true⟩, some 1⟩ [(1, 7)] = .accept (consumerGroupName 1)
  ∧ pollNotifyGroupName 1 = consumerGroupName 1 := by
  refine ⟨by decide, by decide, rfl⟩

/-- Claim C5: closing a poll is idempotent.  After any close the poll is
closed; the first close of an open poll increments the version by exactly
one and broadcasts poll.closed; closing the resulting closed poll returns
the same success message "closed", changes nothing and emits no second
broadcast. -/
theorem c5_poll_close_idempotent (p : Poll) :
    (pollClosePost p).poll.is_closed = true
  ∧ (p.is_closed = false →
      (pollClosePost p).poll.version = p.version + 1 ∧ (pollClosePost p).broadcast = true)
  ∧ pollClosePost ((pollClosePost p).poll) = ⟨(pollClosePost p).poll, false, "closed"⟩ := by
  unfold pollClosePost
  by_cases h : p.is_closed <;> simp [h]

theorem c5_poll_close_witness :
    (pollClosePost pollC5).poll.is_closed = true
  ∧ pollClosePost ((pollClosePost pollC5).poll) = ⟨(pollClosePost pollC5).poll, false, "closed"⟩ :=
  ⟨(c5_poll_close_idempotent pollC5).1, (c5_poll_close_idempotent pollC5).2.2⟩

/-- Claim C8: accepting an invite as an existing participant of its event
answers already_member and leaves the store unchanged (uses_count not
incremented, no Participant row created); a successful accept (response
joined) inserts exactly one member Participant row and increments
uses_count by exactly one in the same transaction. -/
theorem c8_accept_invite (inv : Invite) (db : List Participant) (uid now newPk : Nat) :
    (db.any (fun q => decide (q.eventId = inv.eventId ∧ q.userId = uid)) = true →
      acceptInvite inv db uid now newPk = (.alreadyMember, inv, db))
  ∧ (∀ inv2 db2, acceptInvite inv db uid now newPk = (.joined, inv2, db2) →
      inv2 = { inv with uses_count := inv.uses_count + 1 }
      ∧ db2 = db ++ [⟨newPk, uid, inv.eventId, Role.member⟩]) := by
  constructor
  · intro h
    unfold acceptInvite
    rw [h]
    simp
  · intro inv2 db2 h
    simp only [acceptInvite] at h
    split at h
    · simp at h
    · split at h
      · simp at h
      · rw [Prod.mk.injEq, Prod.mk.injEq] at h
        exact ⟨h.2.1.symm, h.2.2.symm⟩

theorem c8_accept_invite_witness :
    acceptInvite invC8 dbC8 10 50 2 = (.alreadyMember, invC8, dbC8) :=
  (c8_accept_invite invC8 dbC8 10 50 2).1 (by decide)

/-- Claim C9 counterexample: the claim says a missing or non-integer
event_id always closes with 4400 and that the event_id parse runs before
the token check.  On a scope with no authenticated user AND a missing
event_id the gateway closes with 4401, not 4400; and a scope holding an
inactive but token-resolved user with a well-formed event_id is accepted
rather than closed 4401, because connect never re-checks the active
flag. -/
theorem c9_counterexample_auth_checked_first :
    eventConsumerConnect ⟨none, none⟩ [] = .close 4401
  ∧ ConnectOutcome.close 4401 ≠ ConnectOutcome.close 4400
  ∧ eventConsumerConnect ⟨some ⟨7, false⟩, some 1⟩ [(1, 7)] = .accept "event:1" := by
  refine ⟨rfl, by decide, by decide⟩

/-- Claim C9 (amended): the gateway applies the authentication check
first: any attempt with no authenticated user closes with 4401 regardless
of event_id; an attempt that passes authentication but has a missing or
non-integer event_id closes with 4400. -/
theorem c9_connect_close_codes (scope : WsScope) (ps : List (Nat × Nat)) :
    (scope.user = none → eventConsumerConnect scope ps = .close 4401)
  ∧ (∀ u, scope.user = some u → scope.event_id = none →
      eventConsumerConnect scope ps = .close 4400) := by
  obtain ⟨u, e⟩ := scope
  constructor
  · rintro rfl
    rfl
  · rintro u rfl rfl
    rfl

theorem c9_connect_close_codes_witness :
    eventConsumerConnect ⟨none, some 3⟩ [] = .close 4401
  ∧ eventConsumerConnect ⟨some ⟨1, true⟩, none⟩ [] = .close 4400 :=
  ⟨(c9_connect_close_codes ⟨none, some 3⟩ []).1 rfl,
   (c9_connect_close_codes ⟨some ⟨1, true⟩, none⟩ []).2 ⟨1, true⟩ rfl rfl⟩

/-- Claim C10: on a single-choice poll with allow_change_vote = true, an
accepted vote for an option the caller has not voted for deletes every
existing vote row of the caller and inserts the single new vote, so the
caller ends with exactly the one chosen vote even if the pre-state held
several votes. -/
theorem c10_single_choice_change_deletes_all (poll : Poll) (now o : Nat)
    (existing : Finset Nat)
    (hm : poll.multiple = false) (hc : poll.allow_change_vote = true)
    (hopen : poll.is_voting_closed now = false)
    (hopt : o ∈ poll.options) (hnot : o ∉ existing) :
    (pollVotePost poll now [o] existing).toOption.map VoteOk.votes = some {o} := by
  unfold pollVotePost
  simp [hopen, hm, hc, hopt, hnot]
  by_cases he : existing = ∅ <;> simp [he, hnot] <;> exact ⟨_, rfl, rfl⟩

theorem c10_witness :
    (pollVotePost pollC10 0 [3] {1, 2}).toOption.map VoteOk.votes = some {3} :=
  c10_single_choice_change_deletes_all pollC10 0 3 {1, 2} rfl rfl rfl (by decide) (by decide)

/-- Within a store whose participant pks are unique, two rows with the same
pk coincide. -/
theorem participant_pk_unique {db : List Participant}
    (hnodup : (db.map Participant.pk).Nodup)
    {a b : Participant} (ha : a ∈ db) (hb : b ∈ db) (hpk : a.pk = b.pk) : a = b := by
  induction db with
  | nil => cases ha
  | cons c rest ih =>
    rw [List.map_cons, List.nodup_cons] at hnodup
    rcases List.mem_cons.mp ha with rfl | ha2
    · rcases List.mem_cons.mp hb with rfl | hb2
      · rfl
      · exact absurd (hpk ▸ List.mem_map_of_mem Participant.pk hb2) hnodup.1
    · rcases List.mem_cons.mp hb with rfl | hb2
      · exact absurd (hpk ▸ List.mem_map_of_mem Participant.pk ha2) hnodup.1
      · exact ih hnodup.2 ha2 hb2

theorem find_by_pk {db : List Participant} {p : Participant}
    (hnodup : (db.map Participant.pk).Nodup) (hp : p ∈ db) :
    db.find? (fun q => q.pk == p.pk) = some p := by
  have hsome : (db.find? (fun q => q.pk == p.pk)).isSome := by
    rw [List.find?_isSome]
    exact ⟨p, hp, by simp⟩
  obtain ⟨q, hq⟩ := Option.isSome_iff_exists.mp hsome
  have hqmem : q ∈ db := List.mem_of_find?_eq_some hq
  have hqpk : q.pk = p.pk := by simpa using List.find?_some hq
  rw [hq, participant_pk_unique hnodup hqmem hp hqpk]

/-- Claim C4: a request that would demote or delete the sole organizer of
an event is rejected with machine code last_organizer or
self_last_organizer and leaves the participant set unchanged, and the
same guard holds at the store boundary: the pre_delete and pre_save
signal hooks raise for the sole organizer, so direct saves and deletes
cannot violate the invariant either. -/
theorem c4_last_organizer_guard (db : List Participant) (eventId pid requester : Nat)
    (p : Participant) (newRole : Role)
    (hfind : db.find? (fun q => decide (q.eventId = eventId ∧ q.pk = pid)) = some p)
    (hrole : p.role = Role.organizer)
    (hsole : _other_organizers_exist db p.eventId p.pk = false)
    (hnodup : (db.map Participant.pk).Nodup)
    (hnr : newRole ≠ Role.organizer) :
    ((participantPatch db eventId pid requester newRole).1 = .err "last_organizer" ∨
     (participantPatch db eventId pid requester newRole).1 = .err "self_last_organizer")
  ∧ (participantPatch db eventId pid requester newRole).2 = db
  ∧ (participantDelete db eventId pid requester).1 = .err "last_organizer"
  ∧ (participantDelete db eventId pid requester).2 = db
  ∧ prevent_last_organizer_delete db p = .error "Cannot remove the last organizer from the event."
  ∧ prevent_last_organizer_demotion db { p with role := newRole } =
      .error "Cannot demote the last organizer of the event." := by
  have hmem : p ∈ db := List.mem_of_find?_eq_some hfind
  have hhas : _has_other_organizers db p = false := hsole
  have hne : ¬ newRole = p.role := fun h => hnr (h.trans hrole)
  have hpatch : (participantPatch db eventId pid requester newRole).2 = db ∧
      ((participantPatch db eventId pid requester newRole).1 = .err "last_organizer" ∨
       (participantPatch db eventId pid requester newRole).1 = .err "self_last_organizer") := by
    unfold participantPatch
    rw [hfind]
    dsimp only
    rw [if_neg hne, if_pos ⟨hrole, hnr⟩]
    by_cases hreq : p.userId = requester
    · rw [if_pos ⟨hreq, hsole⟩]
      refine ⟨rfl, ?_⟩
      by_cases hother :
          (db.any fun q => decide (q.eventId = p.eventId ∧ q.pk ≠ p.pk)) = true
      · rw [if_pos hother]
        right
        rfl
      · rw [if_neg hother]
        left
        rfl
    · rw [if_neg (fun hand => hreq hand.1), if_pos hsole]
      exact ⟨rfl, Or.inl rfl⟩
  have hdel : (participantDelete db eventId pid requester).2 = db ∧
      (participantDelete db eventId pid requester).1 = .err "last_organizer" := by
    unfold participantDelete
    rw [hfind]
    dsimp only
    rw [if_pos hrole]
    by_cases hreq : p.userId = requester
    · rw [if_pos ⟨hreq, hsole⟩]
      exact ⟨rfl, rfl⟩
    · rw [if_neg (fun hand => hreq hand.1), if_pos hsole]
      exact ⟨rfl, rfl⟩
  refine ⟨hpatch.2, hpatch.1, hdel.2, hdel.1, ?_, ?_⟩
  · unfold prevent_last_organizer_delete
    rw [hrole]
    simp [hhas]
  · unfold prevent_last_organizer_demotion
    have hpk : ({ p with role := newRole } : Participant).pk = p.pk := rfl
    rw [hpk, find_by_pk hnodup hmem]
    simp [hrole, hnr, hhas]

theorem c4_last_organizer_guard_witness :
    ((participantPatch dbC4 5 1 10 Role.member).1 = .err "last_organizer" ∨
     (participantPatch dbC4 5 1 10 Role.member).1 = .err "self_last_organizer")
  ∧ (participantDelete dbC4 5 1 10).1 = .err "last_organizer" :=
  ⟨(c4_last_organizer_guard dbC4 5 1 10 ⟨1, 10, 5, Role.organizer⟩ Role.member
      (by decide) rfl (by decide) (by decide) (by decide)).1,
   (c4_last_organizer_guard dbC4 5 1 10 ⟨1, 10, 5, Role.organizer⟩ Role.member
      (by decide) rfl (by decide) (by decide) (by decide)).2.2.1⟩
/-- Finset helper: removing a part of a set and adding a disjoint part
yields the set back only when both parts are empty. -/
theorem sdiff_union_ne_self {S D C : Finset Nat}
    (hD : D ⊆ S) (hC : ∀ x ∈ C, x ∉ S) (h : D ≠ ∅ ∨ C ≠ ∅) :
    (S \ D) ∪ C ≠ S := by
  rcases h with hD2 | hC2
  · obtain ⟨x, hx⟩ := Finset.nonempty_iff_ne_empty.mpr hD2
    intro heq
    have hxS : x ∈ S := hD hx
    have hnot : x ∉ (S \ D) ∪ C := by
      rw [Finset.mem_union, Finset.mem_sdiff]
      rintro (⟨_, hxD⟩ | hxC)
      · exact hxD hx
      · exact hC x hxC hxS
    have hin : x ∈ (S \ D) ∪ C := by rw [heq]; exact hxS
    exact hnot hin
  · obtain ⟨x, hx⟩ := Finset.nonempty_iff_ne_empty.mpr hC2
    intro heq
    have hxS : x ∉ S := hC x hx
    have hin : x ∈ (S \ D) ∪ C := Finset.mem_union_right _ hx
    exact hxS (heq ▸ hin)

/-- Claim C2: for every accepted vote request, the poll version is
incremented by exactly one iff the vote set of the caller changed (some
vote row inserted or deleted, equivalently the final set differs from the
initial one), and a poll.updated broadcast is emitted exactly in that
case; in particular a single-choice vote for an option the caller already
voted for, and a multi-choice vote equal to the existing set, leave the
vote rows and version unchanged and emit no broadcast. -/
theorem c2_vote_version_broadcast_iff_changed (poll : Poll) (now : Nat) (ids : List Nat)
    (existing : Finset Nat) (r : VoteOk)
    (h : pollVotePost poll now ids existing = .ok r) :
    (r.version = poll.version + 1 ↔ r.votes ≠ existing)
  ∧ (r.votes = existing → r.version = poll.version)
  ∧ (r.broadcast = true ↔ r.votes ≠ existing)
  ∧ (poll.multiple = false → ∀ o, ids = [o] → o ∈ existing →
      r.votes = existing ∧ r.version = poll.version ∧ r.broadcast = false)
  ∧ (poll.multiple = true → ids.toFinset = existing →
      r.votes = existing ∧ r.version = poll.version ∧ r.broadcast = false) := by
  simp only [pollVotePost] at h
  split_ifs at h with h1 h2 h3 h4 h5 h6 h7 h8 h9 h10 h11 h12 h13
  -- single choice, change forbidden, chosen option already voted: no-op
  · injection h with h
    subst h
    dsimp only
    refine ⟨iff_of_false (by omega) (by simp), fun _ => rfl,
      iff_of_false (by simp) (by simp), fun _ o _ _ => ⟨rfl, rfl, rfl⟩, ?_⟩
    intro hmt
    rw [h5] at hmt
    exact absurd hmt (by decide)
  -- single choice, change allowed, chosen option already voted: no-op
  · injection h with h
    subst h
    dsimp only
    refine ⟨iff_of_false (by omega) (by simp), fun _ => rfl,
      iff_of_false (by simp) (by simp), fun _ o _ _ => ⟨rfl, rfl, rfl⟩, ?_⟩
    intro hmt
    rw [h5] at hmt
    exact absurd hmt (by decide)
  -- single choice, change allowed, different option: delete all and insert
  · injection h with h
    subst h
    dsimp only
    have hvne : ({ids.headD 0} : Finset Nat) ≠ existing := by
      intro heq
      exact h9 (heq ▸ Finset.mem_singleton_self (ids.headD 0))
    refine ⟨⟨fun _ => hvne, fun _ => rfl⟩, fun heq => absurd heq hvne,
      ⟨fun _ => hvne, fun _ => rfl⟩, ?_, ?_⟩
    · intro _ o hids ho
      subst hids
      simp only [List.headD_cons] at h9
      exact absurd ho h9
    · intro hmt
      rw [h5] at hmt
      exact absurd hmt (by decide)
  -- single choice, no existing vote: insert
  · have hemp : existing = ∅ := not_not.mp h6
    injection h with h
    subst h
    dsimp only
    have hvne : ({ids.headD 0} : Finset Nat) ≠ existing := by
      rw [hemp]
      exact Finset.singleton_ne_empty _
    refine ⟨⟨fun _ => hvne, fun _ => rfl⟩, fun heq => absurd heq hvne,
      ⟨fun _ => hvne, fun _ => rfl⟩, ?_, ?_⟩
    · intro _ o _ ho
      rw [hemp] at ho
      exact absurd ho (Finset.not_mem_empty o)
    · intro hmt
      rw [h5] at hmt
      exact absurd hmt (by decide)
  -- multiple choice, change allowed, some row deleted or inserted
  · injection h with h
    subst h
    dsimp only
    have hch : existing \ ids.toFinset ≠ ∅ ∨ ids.toFinset \ existing ≠ ∅ := by
      simpa using h12
    have hvne : (existing \ (existing \ ids.toFinset)) ∪ (ids.toFinset \ existing) ≠ existing :=
      sdiff_union_ne_self Finset.sdiff_subset
        (fun x hx => (Finset.mem_sdiff.mp hx).2) hch
    refine ⟨⟨fun _ => hvne, fun _ => rfl⟩, fun heq => absurd heq hvne,
      ⟨fun _ => hvne, fun _ => h12⟩, ?_, ?_⟩
    · intro hmf
      exact absurd hmf h5
    · intro _ hset
      rw [hset] at hch
      simp at hch
  -- multiple choice, change allowed, nothing deleted nor inserted: no-op
  · have h12b : (decide (existing \ ids.toFinset ≠ ∅) ||
        decide (ids.toFinset \ existing ≠ ∅)) = false := by
      rw [← Bool.not_eq_true]
      exact h12
    have hboth : existing \ ids.toFinset = ∅ ∧ ids.toFinset \ existing = ∅ := by
      simpa [not_or, not_not] using h12
    injection h with h
    subst h
    dsimp only
    have hveq : (existing \ (existing \ ids.toFinset)) ∪ (ids.toFinset \ existing) = existing := by
      rw [hboth.1, hboth.2, Finset.sdiff_empty, Finset.union_empty]
    refine ⟨iff_of_false (by omega) (not_not.mpr hveq), fun _ => rfl,
      iff_of_false (by rw [h12b]; exact Bool.false_ne_true) (not_not.mpr hveq), ?_, ?_⟩
    · intro hmf
      exact absurd hmf h5
    · intro _ _
      exact ⟨hveq, rfl, h12b⟩
  -- multiple choice, change forbidden, some row inserted
  · injection h with h
    subst h
    dsimp only
    have hch : ids.toFinset \ existing ≠ ∅ := by
      simpa using h13
    have hvne : (existing \ ∅) ∪ (ids.toFinset \ existing) ≠ existing :=
      sdiff_union_ne_self (Finset.empty_subset existing)
        (fun x hx => (Finset.mem_sdiff.mp hx).2) (Or.inr hch)
    refine ⟨⟨fun _ => hvne, fun _ => rfl⟩, fun heq => absurd heq hvne,
      ⟨fun _ => hvne, fun _ => h13⟩, ?_, ?_⟩
    · intro hmf
      exact absurd hmf h5
    · intro _ hset
      rw [hset] at hch
      simp at hch
  -- multiple choice, change forbidden, nothing inserted: no-op
  · have h13b : (decide ((∅ : Finset Nat) ≠ ∅) ||
        decide (ids.toFinset \ existing ≠ ∅)) = false := by
      rw [← Bool.not_eq_true]
      exact h13
    have hcr : ids.toFinset \ existing = ∅ := by
      simpa [not_or, not_not] using h13
    injection h with h
    subst h
    dsimp only
    have hveq : (existing \ ∅) ∪ (ids.toFinset \ existing) = existing := by
      rw [hcr, Finset.sdiff_empty, Finset.union_empty]
    refine ⟨iff_of_false (by omega) (not_not.mpr hveq), fun _ => rfl,
      iff_of_false (by rw [h13b]; exact Bool.false_ne_true) (not_not.mpr hveq), ?_, ?_⟩
    · intro hmf
      exact absurd hmf h5
    · intro _ _
      exact ⟨hveq, rfl, h13b⟩

theorem c2_vote_witness :
    pollVotePost pollC2 0 [1] ∅ = .ok voteC2
  ∧ (voteC2.version = pollC2.version + 1 ↔ voteC2.votes ≠ (∅ : Finset Nat))
  ∧ (voteC2.broadcast = true ↔ voteC2.votes ≠ (∅ : Finset Nat)) :=
  ⟨rfl, (c2_vote_version_broadcast_iff_changed pollC2 0 [1] ∅ voteC2 rfl).1,
   (c2_vote_version_broadcast_iff_changed pollC2 0 [1] ∅ voteC2 rfl).2.2.1⟩
theorem assign_if_eq (r : OrderedRow) (i : Nat) :
    (if r.order = i then r else { r with order := i }) = { r with order := i } := by
  by_cases h : r.order = i
  · cases r
    simp_all
  · simp [h]

theorem assignOrders_cons (r : OrderedRow) (rest : List OrderedRow) (i : Nat) :
    assignOrders i (r :: rest) = { r with order := i } :: assignOrders (i + 1) rest := by
  rw [assignOrders, assign_if_eq]

theorem assignOrders_map_order (l : List OrderedRow) :
    ∀ i, (assignOrders i l).map OrderedRow.order = List.range' i l.length := by
  induction l with
  | nil => intro i; rfl
  | cons r rest ih =>
    intro i
    rw [assignOrders_cons, List.map_cons, ih (i + 1)]
    rfl

theorem assignOrders_map_id (l : List OrderedRow) :
    ∀ i, (assignOrders i l).map OrderedRow.id = l.map OrderedRow.id := by
  induction l with
  | nil => intro i; rfl
  | cons r rest ih =>
    intro i
    rw [assignOrders_cons, List.map_cons, ih (i + 1), List.map_cons]

theorem mem_assignOrders_order_ge (l : List OrderedRow) :
    ∀ i x, x ∈ assignOrders i l → i ≤ x.order := by
  induction l with
  | nil =>
    intro i x hx
    cases hx
  | cons r rest ih =>
    intro i x hx
    rw [assignOrders_cons] at hx
    rcases List.mem_cons.mp hx with rfl | hx2
    · exact Nat.le_refl _
    · exact Nat.le_of_succ_le (ih (i + 1) x hx2)

theorem sorted_assignOrders (l : List OrderedRow) :
    ∀ i, List.Sorted rowLe (assignOrders i l) := by
  induction l with
  | nil =>
    intro i
    exact List.sorted_nil
  | cons r rest ih =>
    intro i
    rw [assignOrders_cons, List.sorted_cons]
    refine ⟨?_, ih (i + 1)⟩
    intro b hb
    have hbo : i + 1 ≤ b.order := mem_assignOrders_order_ge rest (i + 1) b hb
    have hlt : ({ r with order := i } : OrderedRow).order < b.order := by
      dsimp only
      omega
    exact Or.inl hlt

theorem assignOrders_idem (l : List OrderedRow) :
    ∀ i, assignOrders i (assignOrders i l) = assignOrders i l := by
  induction l with
  | nil => intro i; rfl
  | cons r rest ih =>
    intro i
    rw [assignOrders_cons, assignOrders, ih (i + 1)]
    simp

theorem sortRows_perm (l : List OrderedRow) : (sortRows l).Perm l :=
  List.perm_insertionSort rowLe l

theorem sortRows_of_sorted {l : List OrderedRow} (h : List.Sorted rowLe l) :
    sortRows l = l :=
  h.insertionSort_eq

/-- Claim C3: normalization assigns each row the order equal to its
position index in the sequence sorted by (order, id) - the resulting
order values read exactly 0..N-1, so their multiset is {0, ..., N-1} -
and a second run changes nothing (idempotence).  Both the task-list
normalizer and the tasklist-in-event normalizer satisfy this. -/
theorem c3_normalize_range_and_idempotent (rows : List OrderedRow) :
    ((normalize_task_orders_in_list rows).map OrderedRow.order).Perm
      (List.range rows.length)
  ∧ (normalize_task_orders_in_list rows).map OrderedRow.id =
      (sortRows rows).map OrderedRow.id
  ∧ normalize_task_orders_in_list (normalize_task_orders_in_list rows) =
      normalize_task_orders_in_list rows
  ∧ ((normalize_tasklist_orders_in_event rows).map OrderedRow.order).Perm
      (List.range rows.length)
  ∧ (normalize_tasklist_orders_in_event rows).map OrderedRow.id =
      (sortRows rows).map OrderedRow.id
  ∧ normalize_tasklist_orders_in_event (normalize_tasklist_orders_in_event rows) =
      normalize_tasklist_orders_in_event rows := by
  have hord : (assignOrders 0 (sortRows rows)).map OrderedRow.order =
      List.range rows.length := by
    rw [assignOrders_map_order, List.range_eq_range']
    congr 1
    exact (sortRows_perm rows).length_eq
  have hid : (assignOrders 0 (sortRows rows)).map OrderedRow.id =
      (sortRows rows).map OrderedRow.id :=
    assignOrders_map_id (sortRows rows) 0
  have hidem : assignOrders 0 (sortRows (assignOrders 0 (sortRows rows))) =
      assignOrders 0 (sortRows rows) := by
    rw [sortRows_of_sorted (sorted_assignOrders (sortRows rows) 0), assignOrders_idem]
  unfold normalize_task_orders_in_list normalize_tasklist_orders_in_event
  refine ⟨?_, hid, hidem, ?_, hid, hidem⟩ <;>
    · rw [hord]
theorem mem_leadersAux (opts : List PollOptionView) :
    ∀ (maxV : Nat) (ldr : List Nat) (x : Nat),
      x ∈ (leadersAux maxV ldr opts).2 ↔
        (x ∈ ldr ∧ ∀ o ∈ opts, o.votes_count ≤ maxV) ∨
        (∃ o ∈ opts, x = o.id ∧ o.votes_count ≠ 0 ∧ maxV ≤ o.votes_count ∧
          ∀ o2 ∈ opts, o2.votes_count ≤ o.votes_count) := by
  induction opts with
  | nil =>
    intro maxV ldr x
    simp [leadersAux]
  | cons o rest ih =>
    intro maxV ldr x
    by_cases h0 : o.votes_count = 0
    · rw [leadersAux, if_pos h0, ih]
      simp only [List.forall_mem_cons, List.exists_mem_cons_iff]
      constructor
      · rintro (⟨hx, hall⟩ | ⟨o2, ho2, hx, hnz, hle, hall⟩)
        · exact Or.inl ⟨hx, by omega, hall⟩
        · exact Or.inr (Or.inr ⟨o2, ho2, hx, hnz, hle, by omega, hall⟩)
      · rintro (⟨hx, _, hall⟩ | (⟨hx, hnz, hle, hov, hall⟩ | ⟨o2, ho2, hx, hnz, hle, hov, hall⟩))
        · exact Or.inl ⟨hx, hall⟩
        · exact absurd h0 hnz
        · exact Or.inr ⟨o2, ho2, hx, hnz, hle, hall⟩
    · by_cases hlt : maxV < o.votes_count
      · rw [leadersAux, if_neg h0, if_pos hlt, ih]
        simp only [List.forall_mem_cons, List.exists_mem_cons_iff, List.mem_singleton]
        constructor
        · rintro (⟨hx, hall⟩ | ⟨o2, ho2, hx, hnz, hle, hall⟩)
          · exact Or.inr (Or.inl ⟨hx, h0, by omega, by omega, hall⟩)
          · exact Or.inr (Or.inr ⟨o2, ho2, hx, hnz, by omega, hle, hall⟩)
        · rintro (⟨hx, hov, hall⟩ | (⟨hx, hnz, hle, hov, hall⟩ | ⟨o2, ho2, hx, hnz, hle, hov, hall⟩))
          · omega
          · exact Or.inl ⟨hx, hall⟩
          · exact Or.inr ⟨o2, ho2, hx, hnz, hov, hall⟩
      · by_cases heq : o.votes_count = maxV
        · rw [leadersAux, if_neg h0, if_neg hlt, if_pos heq, ih]
          simp only [List.forall_mem_cons, List.exists_mem_cons_iff, List.mem_append,
            List.mem_singleton]
          constructor
          · rintro (⟨hx | hx, hall⟩ | ⟨o2, ho2, hx, hnz, hle, hall⟩)
            · exact Or.inl ⟨hx, by omega, hall⟩
            · refine Or.inr (Or.inl ⟨hx, h0, by omega, by omega, ?_⟩)
              intro o3 h3
              have := hall o3 h3
              omega
            · exact Or.inr (Or.inr ⟨o2, ho2, hx, hnz, hle, by omega, hall⟩)
          · rintro (⟨hx, _, hall⟩ | (⟨hx, hnz, hle, hov, hall⟩ | ⟨o2, ho2, hx, hnz, hle, hov, hall⟩))
            · exact Or.inl ⟨Or.inl hx, hall⟩
            · refine Or.inl ⟨Or.inr hx, ?_⟩
              intro o3 h3
              have := hall o3 h3
              omega
            · exact Or.inr ⟨o2, ho2, hx, hnz, hle, hall⟩
        · rw [leadersAux, if_neg h0, if_neg hlt, if_neg heq, ih]
          simp only [List.forall_mem_cons, List.exists_mem_cons_iff]
          constructor
          · rintro (⟨hx, hall⟩ | ⟨o2, ho2, hx, hnz, hle, hall⟩)
            · exact Or.inl ⟨hx, by omega, hall⟩
            · exact Or.inr (Or.inr ⟨o2, ho2, hx, hnz, hle, by omega, hall⟩)
          · rintro (⟨hx, _, hall⟩ | (⟨hx, hnz, hle, hov, hall⟩ | ⟨o2, ho2, hx, hnz, hle, hov, hall⟩))
            · exact Or.inl ⟨hx, hall⟩
            · omega
            · exact Or.inr ⟨o2, ho2, hx, hnz, hle, hall⟩

theorem nat_sum_eq_zero {l : List Nat} (h : l.sum = 0) : ∀ x ∈ l, x = 0 := by
  induction l with
  | nil =>
    intro x hx
    cases hx
  | cons a rest ih =>
    rw [List.sum_cons] at h
    intro x hx
    rcases List.mem_cons.mp hx with rfl | hx2
    · omega
    · exact ih (by omega) x hx2

theorem option_id_unique {opts : List PollOptionView}
    (hnd : (opts.map PollOptionView.id).Nodup) {a b : PollOptionView}
    (ha : a ∈ opts) (hb : b ∈ opts) (hid : a.id = b.id) : a = b := by
  induction opts with
  | nil => cases ha
  | cons c rest ih =>
    rw [List.map_cons, List.nodup_cons] at hnd
    rcases List.mem_cons.mp ha with rfl | ha2
    · rcases List.mem_cons.mp hb with rfl | hb2
      · rfl
      · exact absurd (hid ▸ List.mem_map_of_mem PollOptionView.id hb2) hnd.1
    · rcases List.mem_cons.mp hb with rfl | hb2
      · exact absurd (hid ▸ List.mem_map_of_mem PollOptionView.id ha2) hnd.1
      · exact ih hnd.2 ha2 hb2

/-- Claim C6: an option id is in leader_option_ids iff its vote count is
strictly positive and equals the maximum vote count over the options of
the poll; and leader_option_ids is empty whenever total_votes = 0. -/
theorem c6_leader_option_ids_iff (options : List PollOptionView)
    (hnd : (options.map PollOptionView.id).Nodup) :
    (∀ o ∈ options,
      (o.id ∈ get_leader_option_ids options ↔
        0 < o.votes_count ∧ ∀ o2 ∈ options, o2.votes_count ≤ o.votes_count))
  ∧ (get_total_votes options = 0 → get_leader_option_ids options = []) := by
  constructor
  · intro o ho
    have hne : options.isEmpty = false := by
      cases options
      · cases ho
      · rfl
    rw [get_leader_option_ids, if_neg (by simp [hne]), mem_leadersAux]
    constructor
    · rintro (⟨hx, _⟩ | ⟨o2, ho2, hx, hnz, _, hall⟩)
      · cases hx
      · obtain rfl : o = o2 := option_id_unique hnd ho ho2 hx
        exact ⟨Nat.pos_of_ne_zero hnz, hall⟩
    · rintro ⟨hpos, hall⟩
      exact Or.inr ⟨o, ho, rfl, by omega, by omega, hall⟩
  · intro htot
    have hz : ∀ o ∈ options, o.votes_count = 0 := by
      intro o ho
      have hmem : o.votes_count ∈ options.map PollOptionView.votes_count :=
        List.mem_map_of_mem PollOptionView.votes_count ho
      rw [get_total_votes] at htot
      exact nat_sum_eq_zero htot _ hmem
    cases options with
    | nil => rfl
    | cons o rest =>
      rw [get_leader_option_ids, if_neg (by simp)]
      rw [List.eq_nil_iff_forall_not_mem]
      intro x hx
      rcases (mem_leadersAux (o :: rest) 0 [] x).mp hx with ⟨hmem, _⟩ | ⟨o2, ho2, _, hnz, _, _⟩
      · cases hmem
      · exact hnz (hz o2 ho2)

theorem c6_witness :
    (⟨1, 2⟩ : PollOptionView).id ∈ get_leader_option_ids optsC6 ↔
      0 < (⟨1, 2⟩ : PollOptionView).votes_count ∧
        ∀ o2 ∈ optsC6, o2.votes_count ≤ (⟨1, 2⟩ : PollOptionView).votes_count :=
  (c6_leader_option_ids_iff optsC6 (by decide)).1 ⟨1, 2⟩ (by decide)
theorem validate_nodup_ok {raw : List Nat} (h : raw.Nodup) :
    _validate_ordered_ids raw = .ok raw := by
  unfold _validate_ordered_ids
  by_cases he : raw = []
  · rw [if_pos he, he]
  · rw [if_neg he, if_neg (by rw [List.dedup_eq_self.mpr h]; exact fun hx => hx rfl)]

theorem validate_dup_err {raw : List Nat} (h : ¬ raw.Nodup) :
    _validate_ordered_ids raw =
      .error (.validation "ordered_ids must not contain duplicates") := by
  have hne : raw ≠ [] := by
    intro he
    exact h (he ▸ List.nodup_nil)
  have hlen : raw.dedup.length ≠ raw.length := by
    intro hl
    have hsub : raw.dedup.Sublist raw := List.dedup_sublist raw
    have heq : raw.dedup = raw := hsub.eq_of_length hl
    exact h (heq ▸ List.nodup_dedup raw)
  unfold _validate_ordered_ids
  rw [if_neg hne, if_pos hlen]

theorem applyReorder_spec (children : List OrderedRow) (ids : List Nat) :
    ∀ i, (∀ oid ∈ ids, ∃ r ∈ children, r.id = oid) →
      (applyReorder children i ids).map OrderedRow.id = ids ∧
      (applyReorder children i ids).map OrderedRow.order = List.range' i ids.length := by
  induction ids with
  | nil =>
    intro i _
    exact ⟨rfl, rfl⟩
  | cons oid rest ih =>
    intro i hex
    obtain ⟨r, hr, hid⟩ := hex oid (List.mem_cons_self oid rest)
    have hsome : (children.find? (fun q => q.id == oid)).isSome := by
      rw [List.find?_isSome]
      exact ⟨r, hr, by simp [hid]⟩
    obtain ⟨q, hq⟩ := Option.isSome_iff_exists.mp hsome
    have hqid : q.id = oid := by simpa using List.find?_some hq
    have hrest := ih (i + 1) (fun x hx => hex x (List.mem_cons_of_mem oid hx))
    rw [applyReorder, hq]
    refine ⟨?_, ?_⟩
    · rw [List.map_cons, hrest.1]
      simp [hqid]
    · rw [List.map_cons, hrest.2]
      rfl

theorem perm_iff_toFinset_len {l1 l2 : List Nat} (h1 : l1.Nodup) (h2 : l2.Nodup) :
    l1.Perm l2 ↔ (l1.toFinset = l2.toFinset ∧ l1.length = l2.length) := by
  constructor
  · intro h
    refine ⟨?_, h.length_eq⟩
    ext a
    simp [List.mem_toFinset, h.mem_iff]
  · rintro ⟨hset, _⟩
    rw [List.perm_ext_iff_of_nodup h1 h2]
    intro a
    rw [← List.mem_toFinset, ← List.mem_toFinset, hset]

theorem reorderPost_nodup_eq {raw : List Nat} (hnd : raw.Nodup)
    (children : List OrderedRow) :
    reorderPost children raw =
      if ((sortRows children).map OrderedRow.id).toFinset ≠ raw.toFinset ∨
          ((sortRows children).map OrderedRow.id).length ≠ raw.length then
        .error .invalidIds
      else .ok (applyReorder children 0 raw) := by
  unfold reorderPost
  rw [validate_nodup_ok hnd]

/-- Claim C7 (amended): for a duplicate-free ordered_ids, the reorder
request fails with code invalid_ids (client-error status) iff ordered_ids
is not a permutation of the current children ids of the target - so an
empty list is valid only when the target has no children; a request with
duplicate ids is rejected with a client-error field validation error on
ordered_ids, not with code invalid_ids; on success every child gets the
order equal to the index of its id in the given sequence. -/
theorem c7_reorder_invalid_ids (children : List OrderedRow) (raw : List Nat)
    (hch : (children.map OrderedRow.id).Nodup) :
    (raw.Nodup →
      (reorderPost children raw = .error .invalidIds ↔
        ¬ raw.Perm (children.map OrderedRow.id)))
  ∧ (¬ raw.Nodup →
      reorderPost children raw =
        .error (.validation "ordered_ids must not contain duplicates"))
  ∧ (∀ res, reorderPost children raw = .ok res →
      res.map OrderedRow.id = raw ∧
      res.map OrderedRow.order = List.range raw.length) := by
  have hsp : (sortRows children).Perm children := sortRows_perm children
  have hmid : ((sortRows children).map OrderedRow.id).Perm
      (children.map OrderedRow.id) := hsp.map OrderedRow.id
  have hsnd : ((sortRows children).map OrderedRow.id).Nodup := hmid.nodup_iff.mpr hch
  refine ⟨?_, ?_, ?_⟩
  · intro hnd
    have key : raw.Perm (children.map OrderedRow.id) ↔
        (((sortRows children).map OrderedRow.id).toFinset = raw.toFinset ∧
         ((sortRows children).map OrderedRow.id).length = raw.length) := by
      constructor
      · intro h
        exact (perm_iff_toFinset_len hsnd hnd).mp (hmid.trans h.symm)
      · intro h
        exact ((perm_iff_toFinset_len hsnd hnd).mpr h).symm.trans hmid
    rw [reorderPost_nodup_eq hnd]
    by_cases hcond : (((sortRows children).map OrderedRow.id).toFinset = raw.toFinset ∧
        ((sortRows children).map OrderedRow.id).length = raw.length)
    · rw [if_neg (not_or.mpr ⟨not_not_intro hcond.1, not_not_intro hcond.2⟩)]
      constructor
      · intro h
        simp at h
      · intro hnp
        exact absurd (key.mpr hcond) hnp
    · rw [if_pos (not_and_or.mp hcond)]
      exact ⟨fun _ => fun hp => hcond (key.mp hp), fun _ => rfl⟩
  · intro hnd
    unfold reorderPost
    rw [validate_dup_err hnd]
  · intro res hres
    by_cases hnd : raw.Nodup
    · rw [reorderPost_nodup_eq hnd] at hres
      by_cases hcond : (((sortRows children).map OrderedRow.id).toFinset = raw.toFinset ∧
          ((sortRows children).map OrderedRow.id).length = raw.length)
      · rw [if_neg (not_or.mpr ⟨not_not_intro hcond.1, not_not_intro hcond.2⟩)] at hres
        injection hres with hres
        subst hres
        have hex : ∀ oid ∈ raw, ∃ r ∈ children, r.id = oid := by
          intro oid hoid
          have hmem : oid ∈ (sortRows children).map OrderedRow.id := by
            rw [← List.mem_toFinset, hcond.1, List.mem_toFinset]
            exact hoid
          obtain ⟨r, hr, hid⟩ := List.mem_map.mp hmem
          exact ⟨r, hsp.subset hr, hid⟩
        obtain ⟨h1, h2⟩ := applyReorder_spec children raw 0 hex
        refine ⟨h1, ?_⟩
        rw [h2]
        exact (List.range_eq_range' _).symm
      · rw [if_pos (not_and_or.mp hcond)] at hres
        simp at hres
    · unfold reorderPost at hres
      rw [validate_dup_err hnd] at hres
      simp at hres

theorem c7_reorder_witness :
    (reorderPost rowsC7 [2, 1] = .error .invalidIds ↔
      ¬ ([2, 1] : List Nat).Perm (rowsC7.map OrderedRow.id)) :=
  (c7_reorder_invalid_ids rowsC7 [2, 1] (by decide)).1 (by decide)

/-- Claim C7 counterexample: ordered_ids = [1, 1] against a single child
of id 1 is not a permutation of the children ids, yet the request does
not fail with code invalid_ids - the duplicate check rejects it earlier
with a field validation error. -/
theorem c7_counterexample_duplicate_ids :
    ¬ ([1, 1] : List Nat).Perm (([⟨1, 0⟩] : List OrderedRow).map OrderedRow.id)
  ∧ reorderPost [⟨1, 0⟩] [1, 1] ≠ .error .invalidIds
  ∧ reorderPost [⟨1, 0⟩] [1, 1] =
      .error (.validation "ordered_ids must not contain duplicates") := by
  refine ⟨by decide, ?_, rfl⟩
  intro h
  rw [show reorderPost [⟨1, 0⟩] [1, 1] =
      .error (.validation "ordered_ids must not contain duplicates") from rfl] at h
  simp at h
